import Mathlib

/-!
Verification of the Agon MOS firmware upgrade utility (src/src/main.c)
against its specification.

The program loads a candidate firmware image from a file into a staging
buffer, validates it against an operator-supplied CRC32, asks for
confirmation, captures a backup of the current flash contents, and then
runs an erase-program-verify state machine over the flash device, with a
single recovery attempt (rewriting the backup) and a terminal halt if the
recovery also fails to verify.

The device constants (PAGESIZE, FLASHPAGES, FLASHSIZE, BLOCKSIZE) live in
flash.h, which is not part of the analysed sources; the model is
parameterised over them through a `Config` structure, and the checksum
engine (crc32.c, external per the spec) is an abstract function field.
-/

namespace AgonFlash

/-- A memory is a map from byte addresses to byte values.  The flash
region occupies addresses `[0, flashSize)` (FLASHSTART is 0). -/
def Memory : Type := Nat → Nat

/-- Device and session parameters.  `pageSize` and `numPages` stand for
the PAGESIZE and FLASHPAGES constants of flash.h (not under src/); `crc`
is the external checksum engine (crc32, used but not defined here). -/
structure Config where
  pageSize : Nat
  numPages : Nat
  crc : List Nat → Nat

/-- FLASHSIZE: total flash capacity, `FLASHPAGES * PAGESIZE` bytes. -/
def Config.flashSize (c : Config) : Nat := c.numPages * c.pageSize

/-- Read `len` consecutive bytes starting at address `start` (models the
source ranges of `crc32((char*)addr, len)` and `fastmemcpy`). -/
def readRange (m : Memory) (start len : Nat) : List Nat :=
  (List.range len).map fun i => m (start + i)

/-- Value of an erased flash byte. -/
def erasedByte : Nat := 255

/-- Effect on memory of the erase loop (main.c lines 153-163), which
erases every one of the FLASHPAGES pages: every byte of the flash region
becomes erased, nothing outside it changes. -/
def eraseAll (c : Config) (m : Memory) : Memory :=
  fun a => if a < c.flashSize then erasedByte else m a

/-- Page count and final-page write length, mirroring main.c lines
168-174: `pagemax = size/PAGESIZE`, incremented when `size%PAGESIZE` is
nonzero, in which case `lastpagebytes = size%PAGESIZE`, else a full page. -/
def pageSplit (pageSize size : Nat) : Nat × Nat :=
  let pagemax := size / pageSize
  if size % pageSize ≠ 0 then (pagemax + 1, size % pageSize)
  else (pagemax, pageSize)

/-- The page writes of one pass (main.c lines 177-190): for each
`counter < pagemax` a triple (destination address, source offset, write
length); destination starts at `addressto`, both addresses advance by
`pageSize` per iteration, and the last page writes `lastpagebytes`. -/
def writePages (pageSize addressto pagemax lastpagebytes : Nat) :
    List (Nat × Nat × Nat) :=
  (List.range pagemax).map fun counter =>
    (addressto + counter * pageSize, counter * pageSize,
      if counter = pagemax - 1 then lastpagebytes else pageSize)

/-- Effect of `fastmemcpy(dst, src + srcOff, len)` where the source data
is the byte list `src`. -/
def memcpyFrom (m : Memory) (src : List Nat) (dst srcOff len : Nat) : Memory :=
  fun a =>
    if dst ≤ a ∧ a < dst + len then src.getD (srcOff + (a - dst)) erasedByte
    else m a

/-- Apply a list of page writes to memory in order. -/
def applyWrites (m : Memory) (src : List Nat) : List (Nat × Nat × Nat) → Memory
  | [] => m
  | w :: rest => applyWrites (memcpyFrom m src w.1 w.2.1 w.2.2) src rest

/-- One erase-and-write pass of the state machine (main.c lines 146-191):
erase every flash page, then write `size` bytes of `src` page by page
with destinations starting at `addressto`. -/
def runPass (c : Config) (m : Memory) (addressto : Nat) (src : List Nat)
    (size : Nat) : Memory :=
  applyWrites (eraseAll c m) src
    (writePages c.pageSize addressto (pageSplit c.pageSize size).1
      (pageSplit c.pageSize size).2)

/-- Device-visible events of a run, in program order. -/
inductive Ev where
  | backupCapture
  | disableInt
  | unlockKey
  | protOff
  | setFdiv
  | erasePage (n : Nat)
  | writePage (dst srcOff len : Nat)
  | lockKey
  | verify
  deriving DecidableEq

/-- Event trace of one pass (main.c lines 146-196): unlock the key
register, drop protection, unlock again, set the erase-timing divisor,
erase every one of the FLASHPAGES pages in index order, perform the page
writes, re-lock, then verify. -/
def passTrace (c : Config) (addressto size : Nat) : List Ev :=
  [Ev.unlockKey, Ev.protOff, Ev.unlockKey, Ev.setFdiv]
    ++ (List.range c.numPages).map Ev.erasePage
    ++ (writePages c.pageSize addressto (pageSplit c.pageSize size).1
        (pageSplit c.pageSize size).2).map
          (fun w => Ev.writePage w.1 w.2.1 w.2.2)
    ++ [Ev.lockKey, Ev.verify]

/-- Terminal outcomes of the programming state machine: `reset` is the
countdown-and-restart path taken from the `systemreset` state, `halt` is
the infinite wait entered when the recovery pass fails to verify. -/
inductive Terminal where
  | reset
  | halt
  deriving DecidableEq

/-- Observables of one confirmed programming session: the captured
backup checksum, the memory after the candidate pass, the checksum
computed and the value it was compared against in each pass, the
destination of the first recovery-pass page write, the terminal outcome,
the final memory and the event trace. -/
structure SessLog where
  crcbackup : Nat
  mem1 : Memory
  pass1crc : Nat
  pass1expected : Nat
  pass2 : Option (Nat × Nat)
  recoverDest : Option Nat
  outcome : Terminal
  finalMem : Memory
  trace : List Ev

/-- The confirmed part of `main` (main.c lines 109-220): backup capture,
interrupt disable, then the erase-write-verify state machine.  `corrupt`
models a possible write fault in the candidate pass (the spec's
simulated bit flip of scenario C); a fault-free candidate write is
`corrupt = fun m => m`.  In the source, `addressto` is initialised to
FLASHSTART (= 0) once before the state loop (line 116) and the `recover`
arm of the switch (lines 128-131) resets only `addressfrom` and `size`,
so the recovery pass starts writing at `pagemax * PAGESIZE`, where
`pagemax` is the candidate pass's page count. -/
def runSession (c : Config) (m0 : Memory) (buf1 : List Nat) (size : Nat)
    (crcexpected : Nat) (corrupt : Memory → Memory) : SessLog :=
  let buf2 := readRange m0 0 c.flashSize
  let crcbackup := c.crc (readRange m0 0 c.flashSize)
  let m1 := corrupt (runPass c m0 0 buf1 size)
  let crcresult1 := c.crc (readRange m1 0 size)
  if crcresult1 = crcexpected then
    { crcbackup := crcbackup, mem1 := m1, pass1crc := crcresult1,
      pass1expected := crcexpected, pass2 := none, recoverDest := none,
      outcome := Terminal.reset, finalMem := m1,
      trace := [Ev.backupCapture, Ev.disableInt] ++ passTrace c 0 size }
  else
    let addressto2 := (pageSplit c.pageSize size).1 * c.pageSize
    let m2 := runPass c m1 addressto2 buf2 c.flashSize
    let crcresult2 := c.crc (readRange m2 0 c.flashSize)
    { crcbackup := crcbackup, mem1 := m1, pass1crc := crcresult1,
      pass1expected := crcexpected,
      pass2 := some (crcresult2, crcbackup),
      recoverDest := ((writePages c.pageSize addressto2
          (pageSplit c.pageSize c.flashSize).1
          (pageSplit c.pageSize c.flashSize).2).head?).map (fun w => w.1),
      outcome := if crcresult2 = crcbackup then Terminal.reset else Terminal.halt,
      finalMem := m2,
      trace := ([Ev.backupCapture, Ev.disableInt] ++ passTrace c 0 size)
        ++ passTrace c addressto2 c.flashSize }

/-- Modelled from the spec: the per-state execution of section 4.3,
identical in shape for the candidate and backup passes and "differing
only in the selected source Image and, for WriteBackup, full-length
write", with pages "written strictly in increasing address order"
starting, in each pass, at the start of the flash region.  This is
`runSession` with the recovery pass's destination restarted at
FLASHSTART, used to compare the source against the spec's words. -/
def runSessionSpec (c : Config) (m0 : Memory) (buf1 : List Nat) (size : Nat)
    (crcexpected : Nat) (corrupt : Memory → Memory) : SessLog :=
  let buf2 := readRange m0 0 c.flashSize
  let crcbackup := c.crc (readRange m0 0 c.flashSize)
  let m1 := corrupt (runPass c m0 0 buf1 size)
  let crcresult1 := c.crc (readRange m1 0 size)
  if crcresult1 = crcexpected then
    { crcbackup := crcbackup, mem1 := m1, pass1crc := crcresult1,
      pass1expected := crcexpected, pass2 := none, recoverDest := none,
      outcome := Terminal.reset, finalMem := m1,
      trace := [Ev.backupCapture, Ev.disableInt] ++ passTrace c 0 size }
  else
    let m2 := runPass c m1 0 buf2 c.flashSize
    let crcresult2 := c.crc (readRange m2 0 c.flashSize)
    { crcbackup := crcbackup, mem1 := m1, pass1crc := crcresult1,
      pass1expected := crcexpected,
      pass2 := some (crcresult2, crcbackup),
      recoverDest := ((writePages c.pageSize 0
          (pageSplit c.pageSize c.flashSize).1
          (pageSplit c.pageSize c.flashSize).2).head?).map (fun w => w.1),
      outcome := if crcresult2 = crcbackup then Terminal.reset else Terminal.halt,
      finalMem := m2,
      trace := ([Ev.backupCapture, Ev.disableInt] ++ passTrace c 0 size)
        ++ passTrace c 0 c.flashSize }

/-- The state enum of main.c line 24 (`firmware`, `recover`,
`systemreset`), extended with the dead-stop `halted` reached by the
`while(1)` of line 215. -/
inductive MState where
  | firmware
  | recover
  | systemreset
  | halted
  deriving DecidableEq

/-- The verification branch of main.c lines 200-219: on a checksum match
the next state is `systemreset`; on a mismatch, `firmware` falls back to
`recover` while `recover` dead-stops; the remaining (unreachable)
`default` arm of the inner switch selects `recover`. -/
def nextState (s : MState) (crcMatch : Bool) : MState :=
  if crcMatch then MState.systemreset
  else
    match s with
    | MState.firmware => MState.recover
    | MState.recover => MState.halted
    | _ => MState.recover

/-- Drive the state machine with a list of verification outcomes.  The
`systemreset` state runs the countdown and resets the device; `halted`
never returns control and never resets.  `none` means the supplied
outcomes ran out before a terminal state was reached. -/
def runSM : MState → List Bool → Option Terminal
  | MState.systemreset, _ => some Terminal.reset
  | MState.halted, _ => some Terminal.halt
  | _, [] => none
  | s, v :: vs => runSM (nextState s v) vs

/-- The confirmation prompt loop (main.c lines 105-106): read bytes
until the first one equal to `y` (121) or `n` (110); return that byte
and the unread remainder, or `none` when the input is exhausted. -/
def promptLoop : List Nat → Option (Nat × List Nat)
  | [] => none
  | b :: rest =>
    if b = 121 ∨ b = 110 then some (b, rest) else promptLoop rest

/-- Bytes placed in the candidate staging buffer by the load loop
(main.c lines 78-83): successive `mos_fread` chunks are appended until
the first empty read.  The loop itself has no capacity bound. -/
def loadBytes : List (List Nat) → List Nat
  | [] => []
  | g :: rest => if 0 < g.length then g ++ loadBytes rest else []

/-- External inputs to a run of `main`: the argument count, whether
`mos_fopen` succeeded, the parsed CRC argument (`none` models a
`strtoll` format error setting errno), the file's read chunks, and the
bytes the operator types at the prompt. -/
structure Inputs where
  argc : Nat
  fileOpened : Bool
  crcArg : Option Nat
  chunks : List (List Nat)
  responses : List Nat

/-- Result classification of a run of `main`. -/
inductive MainResult where
  | usageError
  | openError
  | crcFormatError
  | tooLarge
  | crcMismatch
  | userAbort
  | noAnswer
  | session (out : Terminal)
  deriving DecidableEq

/-- The whole of `main` (src/src/main.c lines 52-224) after the banner:
the pre-flight checks in program order, then, on a `y` answer, the
confirmed programming session.  Returns the result classification, the
device-visible event trace, and the final memory. -/
def runMain (c : Config) (m0 : Memory) (inp : Inputs)
    (corrupt : Memory → Memory) : MainResult × List Ev × Memory :=
  if inp.argc ≠ 3 then (MainResult.usageError, [], m0)
  else if inp.fileOpened = false then (MainResult.openError, [], m0)
  else
    match inp.crcArg with
    | none => (MainResult.crcFormatError, [], m0)
    | some crcexpected =>
      let buf1 := loadBytes inp.chunks
      if c.flashSize < buf1.length then (MainResult.tooLarge, [], m0)
      else if crcexpected ≠ c.crc buf1 then (MainResult.crcMismatch, [], m0)
      else
        match promptLoop inp.responses with
        | none => (MainResult.noAnswer, [], m0)
        | some br =>
          if br.1 = 121 then
            (MainResult.session
                (runSession c m0 buf1 buf1.length crcexpected corrupt).outcome,
              (runSession c m0 buf1 buf1.length crcexpected corrupt).trace,
              (runSession c m0 buf1 buf1.length crcexpected corrupt).finalMem)
          else (MainResult.userAbort, [], m0)

/-- A small concrete device used for closed instances: 4 pages of 4
bytes each, with an injective accumulator checksum on byte lists. -/
def cfg4 : Config :=
  Config.mk 4 4 (fun l => l.foldl (fun a b => a * 256 + b % 256) 1)

/-- A concrete initial memory holding byte 7 at every address. -/
def mem7 : Memory := fun _ => 7

/-- A write fault flipping the byte at address 0 to 9 (scenario C's
simulated bit flip during the candidate write). -/
def flip0 : Memory → Memory := fun m a => if a = 0 then 9 else m a

/-- Concrete inputs carrying an empty candidate file, its matching
checksum argument, and a `y` answer. -/
def inpEmpty : Inputs := Inputs.mk 3 true (some (cfg4.crc [])) [] [121]

/-- The state machine's per-pass arithmetic facts used below. -/
theorem pageSplit_fst (pageSize size : Nat) (hps : 0 < pageSize) :
    (pageSplit pageSize size).1 = (size + pageSize - 1) / pageSize := by
  unfold pageSplit
  have hmod := Nat.div_add_mod size pageSize
  have hrlt : size % pageSize < pageSize := Nat.mod_lt _ hps
  rcases Nat.eq_zero_or_pos (size % pageSize) with h | h
  · simp only [h, ne_eq, not_true_eq_false, if_false, ite_false]
    have h1 : size + pageSize - 1 =
        (pageSize - 1) + pageSize * (size / pageSize) := by omega
    have h2 : (pageSize - 1) / pageSize = 0 := Nat.div_eq_of_lt (by omega)
    rw [h1, Nat.add_mul_div_left _ _ hps, h2]
    omega
  · have hne : size % pageSize ≠ 0 := Nat.pos_iff_ne_zero.1 h
    simp only [hne, ne_eq, not_false_eq_true, if_true, ite_true]
    have h1 : size + pageSize - 1 =
        ((size % pageSize - 1) + pageSize) + pageSize * (size / pageSize) := by
      omega
    have h2 : (size % pageSize - 1) / pageSize = 0 := Nat.div_eq_of_lt (by omega)
    rw [h1, Nat.add_mul_div_left _ _ hps, Nat.add_div_right _ hps, h2]
    omega

theorem pageSplit_snd (pageSize size : Nat) :
    (pageSplit pageSize size).2 =
      if size % pageSize ≠ 0 then size % pageSize else pageSize := by
  unfold pageSplit
  split <;> simp_all

/-- Entry `i` of the write-pages list. -/
theorem writePages_getElem (pageSize addressto pagemax lastpagebytes i : Nat)
    (hi : i < pagemax) :
    (writePages pageSize addressto pagemax lastpagebytes)[i]? =
      some (addressto + i * pageSize, i * pageSize,
        if i = pagemax - 1 then lastpagebytes else pageSize) := by
  unfold writePages
  rw [List.getElem?_map, List.getElem?_range hi]
  rfl

theorem writePages_length (pageSize addressto pagemax lastpagebytes : Nat) :
    (writePages pageSize addressto pagemax lastpagebytes).length = pagemax := by
  unfold writePages
  simp

/-- Sum of an almost-constant list over an initial segment of naturals. -/
theorem range_map_ite_sum (n ps lpb : Nat) :
    ((List.range (n + 1)).map fun c => if c = n then lpb else ps).sum =
      n * ps + lpb := by
  rw [List.range_succ, List.map_append, List.sum_append]
  have h1 : ((List.range n).map fun c => if c = n then lpb else ps) =
      (List.range n).map fun _ => ps := by
    apply List.map_congr_left
    intro a ha
    have han : a < n := List.mem_range.1 ha
    rw [if_neg (by omega)]
  rw [h1, List.map_const', List.length_range, List.sum_replicate]
  simp [smul_eq_mul]

/-- Sum of the write lengths of a pass with at least one page. -/
theorem writePages_sum_succ (pageSize addressto lastpagebytes n : Nat) :
    ((writePages pageSize addressto (n + 1) lastpagebytes).map
        (fun w => w.2.2)).sum = n * pageSize + lastpagebytes := by
  unfold writePages
  rw [List.map_map]
  have h1 : ((fun (w : Nat × Nat × Nat) => w.2.2) ∘ fun counter =>
      ((addressto + counter * pageSize, counter * pageSize,
        if counter = n + 1 - 1 then lastpagebytes else pageSize) : Nat × Nat × Nat))
      = fun c => if c = n then lastpagebytes else pageSize := by
    funext c
    simp [Function.comp]
  rw [h1, range_map_ite_sum]

theorem writePages_sum (pageSize size : Nat) (hps : 0 < pageSize) :
    ((writePages pageSize 0 (pageSplit pageSize size).1
        (pageSplit pageSize size).2).map (fun w => w.2.2)).sum = size := by
  have hmod := Nat.div_add_mod size pageSize
  unfold pageSplit
  rcases Nat.eq_zero_or_pos (size % pageSize) with h | h
  · simp only [h, ne_eq, not_true_eq_false, if_false, ite_false]
    rcases Nat.eq_zero_or_pos (size / pageSize) with hq | hq
    · rw [hq] at hmod ⊢
      have hz : size = 0 := by omega
      rw [hz]
      simp [writePages]
    · obtain ⟨n, hn⟩ : ∃ n, size / pageSize = n + 1 :=
        ⟨size / pageSize - 1, by omega⟩
      rw [hn] at hmod ⊢
      rw [writePages_sum_succ]
      have hm2 : pageSize * (n + 1) = n * pageSize + pageSize := by ring
      rw [hm2] at hmod
      omega
  · have hne : size % pageSize ≠ 0 := Nat.pos_iff_ne_zero.1 h
    simp only [hne, ne_eq, not_false_eq_true, if_true, ite_true]
    rw [writePages_sum_succ]
    have : size / pageSize * pageSize = pageSize * (size / pageSize) :=
      Nat.mul_comm _ _
    omega

/-- C3: for every image length at most the device capacity, the page
count is the ceiling of length/pageSize, the final page's write length is
length mod pageSize when nonzero and pageSize otherwise, pages are
written in strictly increasing address order with source and destination
advancing by pageSize each step, and the write lengths sum to the
length. -/
theorem C3_page_arithmetic (c : Config) (size : Nat) (hps : 0 < c.pageSize)
    (hcap : size ≤ c.flashSize) :
    (pageSplit c.pageSize size).1 = (size + c.pageSize - 1) / c.pageSize ∧
    (pageSplit c.pageSize size).2 =
      (if size % c.pageSize ≠ 0 then size % c.pageSize else c.pageSize) ∧
    (∀ i wi wj,
      (writePages c.pageSize 0 (pageSplit c.pageSize size).1
        (pageSplit c.pageSize size).2)[i]? = some wi →
      (writePages c.pageSize 0 (pageSplit c.pageSize size).1
        (pageSplit c.pageSize size).2)[i + 1]? = some wj →
      wi.1 < wj.1 ∧ wj.1 = wi.1 + c.pageSize ∧ wj.2.1 = wi.2.1 + c.pageSize) ∧
    ((writePages c.pageSize 0 (pageSplit c.pageSize size).1
        (pageSplit c.pageSize size).2).map (fun w => w.2.2)).sum = size := by
  refine ⟨pageSplit_fst _ _ hps, pageSplit_snd _ _, ?_, writePages_sum _ _ hps⟩
  intro i wi wj hwi hwj
  have hlen := writePages_length c.pageSize 0 (pageSplit c.pageSize size).1
    (pageSplit c.pageSize size).2
  have hj : i + 1 < (pageSplit c.pageSize size).1 := by
    by_contra hcon
    have hnone : (writePages c.pageSize 0 (pageSplit c.pageSize size).1
        (pageSplit c.pageSize size).2)[i + 1]? = none :=
      List.getElem?_eq_none (by omega)
    rw [hnone] at hwj
    exact Option.noConfusion hwj
  have hi : i < (pageSplit c.pageSize size).1 := by omega
  rw [writePages_getElem _ _ _ _ _ hi] at hwi
  rw [writePages_getElem _ _ _ _ _ hj] at hwj
  have hwi' := Option.some.inj hwi
  have hwj' := Option.some.inj hwj
  subst hwi'
  subst hwj'
  refine ⟨?_, ?_, ?_⟩
  · simp only
    have : i * c.pageSize < (i + 1) * c.pageSize :=
      (Nat.mul_lt_mul_right hps).2 (by omega)
    omega
  · simp only
    ring
  · simp only
    ring

/-- Closed instance of the C3 theorem with its hypotheses discharged at
the concrete device `cfg4` and image length 10. -/
theorem C3_page_arithmetic_witness :
    0 < cfg4.pageSize ∧ 10 ≤ cfg4.flashSize ∧
    ((pageSplit cfg4.pageSize 10).1 =
        (10 + cfg4.pageSize - 1) / cfg4.pageSize ∧
      (pageSplit cfg4.pageSize 10).2 =
        (if 10 % cfg4.pageSize ≠ 0 then 10 % cfg4.pageSize else cfg4.pageSize) ∧
      (∀ i wi wj,
        (writePages cfg4.pageSize 0 (pageSplit cfg4.pageSize 10).1
          (pageSplit cfg4.pageSize 10).2)[i]? = some wi →
        (writePages cfg4.pageSize 0 (pageSplit cfg4.pageSize 10).1
          (pageSplit cfg4.pageSize 10).2)[i + 1]? = some wj →
        wi.1 < wj.1 ∧ wj.1 = wi.1 + cfg4.pageSize ∧
          wj.2.1 = wi.2.1 + cfg4.pageSize) ∧
      ((writePages cfg4.pageSize 0 (pageSplit cfg4.pageSize 10).1
          (pageSplit cfg4.pageSize 10).2).map (fun w => w.2.2)).sum = 10) :=
  ⟨by decide, by decide, C3_page_arithmetic cfg4 10 (by decide) (by decide)⟩

/-- C2: from initial state `firmware` the only reachable terminal
outcomes are `reset` and `halt`; `halt` is reached exactly when the
candidate verification fails and the backup verification then also
fails; and once halted the machine stays halted for every further
outcome sequence, never returning and never resetting. -/
theorem C2_state_machine_totality (vs : List Bool) :
    (runSM MState.firmware vs = some Terminal.halt ↔
      ∃ rest, vs = false :: false :: rest) ∧
    runSM MState.halted vs = some Terminal.halt ∧
    (∀ t, runSM MState.firmware vs = some t →
      t = Terminal.reset ∨ t = Terminal.halt) := by
  refine ⟨?_, by cases vs <;> simp [runSM], ?_⟩
  · match vs with
    | [] => simp [runSM]
    | [v] => cases v <;> simp [runSM, nextState]
    | v0 :: v1 :: rest => cases v0 <;> cases v1 <;> simp [runSM, nextState]
  · intro t _
    cases t
    · exact Or.inl rfl
    · exact Or.inr rfl

/-- Closed instance of the C2 theorem at the double-failure outcome
sequence. -/
theorem C2_state_machine_totality_witness :
    (runSM MState.firmware [false, false] = some Terminal.halt ↔
      ∃ rest, [false, false] = false :: false :: rest) ∧
    runSM MState.halted [false, false] = some Terminal.halt ∧
    (∀ t, runSM MState.firmware [false, false] = some t →
      t = Terminal.reset ∨ t = Terminal.halt) :=
  C2_state_machine_totality [false, false]

/-- C4: in every confirmed session the backup checksum is computed from
the entire initial flash contents, backup capture is the first event,
interrupt disabling the second, and every page-erase event comes
strictly after both. -/
theorem C4_backup_before_erase (c : Config) (m0 : Memory) (buf1 : List Nat)
    (size crcexpected : Nat) (corrupt : Memory → Memory) :
    (runSession c m0 buf1 size crcexpected corrupt).crcbackup =
      c.crc (readRange m0 0 c.flashSize) ∧
    (runSession c m0 buf1 size crcexpected corrupt).trace[0]? =
      some Ev.backupCapture ∧
    (runSession c m0 buf1 size crcexpected corrupt).trace[1]? =
      some Ev.disableInt ∧
    (∀ i n, (runSession c m0 buf1 size crcexpected corrupt).trace[i]? =
      some (Ev.erasePage n) → 1 < i) := by
  simp only [runSession]
  split
  · refine ⟨rfl, rfl, rfl, ?_⟩
    intro i n hi
    match i with
    | 0 => simp at hi
    | 1 => simp at hi
    | j + 2 => omega
  · refine ⟨rfl, rfl, rfl, ?_⟩
    intro i n hi
    match i with
    | 0 => simp at hi
    | 1 => simp at hi
    | j + 2 => omega

/-- Closed instance of the C4 theorem at the concrete faulted session. -/
theorem C4_backup_before_erase_witness :
    (runSession cfg4 mem7 [1, 2, 3, 4] 4 (cfg4.crc [1, 2, 3, 4])
        flip0).crcbackup = cfg4.crc (readRange mem7 0 cfg4.flashSize) ∧
    (runSession cfg4 mem7 [1, 2, 3, 4] 4 (cfg4.crc [1, 2, 3, 4])
        flip0).trace[0]? = some Ev.backupCapture ∧
    (runSession cfg4 mem7 [1, 2, 3, 4] 4 (cfg4.crc [1, 2, 3, 4])
        flip0).trace[1]? = some Ev.disableInt ∧
    (∀ i n, (runSession cfg4 mem7 [1, 2, 3, 4] 4 (cfg4.crc [1, 2, 3, 4])
        flip0).trace[i]? = some (Ev.erasePage n) → 1 < i) :=
  C4_backup_before_erase cfg4 mem7 [1, 2, 3, 4] 4 (cfg4.crc [1, 2, 3, 4]) flip0

/-- C5: the verification checksum of each pass is freshly computed over
the just-written memory — compared against the candidate's originally
supplied value in the first pass and against the checksum captured from
the initial flash contents in the recovery pass — and the captured
backup checksum is unchanged by any candidate-pass corruption. -/
theorem C5_fresh_verification (c : Config) (m0 : Memory) (buf1 : List Nat)
    (size crcexpected : Nat) (corrupt : Memory → Memory) :
    (runSession c m0 buf1 size crcexpected corrupt).pass1expected =
      crcexpected ∧
    (runSession c m0 buf1 size crcexpected corrupt).mem1 =
      corrupt (runPass c m0 0 buf1 size) ∧
    (runSession c m0 buf1 size crcexpected corrupt).pass1crc =
      c.crc (readRange
        ((runSession c m0 buf1 size crcexpected corrupt).mem1) 0 size) ∧
    (∀ x e, (runSession c m0 buf1 size crcexpected corrupt).pass2 =
        some (x, e) →
      e = c.crc (readRange m0 0 c.flashSize) ∧
      x = c.crc (readRange
        ((runSession c m0 buf1 size crcexpected corrupt).finalMem) 0
          c.flashSize)) := by
  simp only [runSession]
  split
  · refine ⟨rfl, rfl, rfl, ?_⟩
    intro x e h
    simp at h
  · refine ⟨rfl, rfl, rfl, ?_⟩
    intro x e h
    simp only [Option.some.injEq, Prod.mk.injEq] at h
    exact ⟨h.2.symm, h.1.symm⟩

/-- Closed instance of the C5 theorem at the concrete faulted session. -/
theorem C5_fresh_verification_witness :
    (runSession cfg4 mem7 [1, 2, 3, 4] 4 (cfg4.crc [1, 2, 3, 4])
        flip0).pass1expected = cfg4.crc [1, 2, 3, 4] ∧
    (runSession cfg4 mem7 [1, 2, 3, 4] 4 (cfg4.crc [1, 2, 3, 4])
        flip0).mem1 = flip0 (runPass cfg4 mem7 0 [1, 2, 3, 4] 4) ∧
    (runSession cfg4 mem7 [1, 2, 3, 4] 4 (cfg4.crc [1, 2, 3, 4])
        flip0).pass1crc = cfg4.crc (readRange
          ((runSession cfg4 mem7 [1, 2, 3, 4] 4 (cfg4.crc [1, 2, 3, 4])
            flip0).mem1) 0 4) ∧
    (∀ x e, (runSession cfg4 mem7 [1, 2, 3, 4] 4 (cfg4.crc [1, 2, 3, 4])
        flip0).pass2 = some (x, e) →
      e = cfg4.crc (readRange mem7 0 cfg4.flashSize) ∧
      x = cfg4.crc (readRange
        ((runSession cfg4 mem7 [1, 2, 3, 4] 4 (cfg4.crc [1, 2, 3, 4])
          flip0).finalMem) 0 cfg4.flashSize)) :=
  C5_fresh_verification cfg4 mem7 [1, 2, 3, 4] 4 (cfg4.crc [1, 2, 3, 4]) flip0

/-- A memory byte at or past the end of every write of a list is
untouched by applying the writes. -/
theorem applyWrites_outside (src : List Nat) (a : Nat)
    (ws : List (Nat × Nat × Nat)) :
    ∀ m : Memory, (∀ w ∈ ws, w.1 + w.2.2 ≤ a) → applyWrites m src ws a = m a := by
  induction ws with
  | nil => intro m _; rfl
  | cons w rest ih =>
    intro m h
    have hw := h w (List.mem_cons_self _ _)
    simp only [applyWrites]
    rw [ih _ (fun w' hw' => h w' (List.mem_cons_of_mem _ hw'))]
    unfold memcpyFrom
    rw [if_neg (by omega)]

/-- With at least one page, the last page ends exactly at the image
length. -/
theorem pageSplit_last (pageSize size : Nat) (hps : 0 < pageSize)
    (hpos : 0 < (pageSplit pageSize size).1) :
    ((pageSplit pageSize size).1 - 1) * pageSize +
      (pageSplit pageSize size).2 = size := by
  have hmod := Nat.div_add_mod size pageSize
  unfold pageSplit at hpos ⊢
  rcases Nat.eq_zero_or_pos (size % pageSize) with h | h
  · simp only [h, ne_eq, not_true_eq_false, if_false, ite_false] at hpos ⊢
    have h1 : (size / pageSize - 1) * pageSize + pageSize =
        pageSize * (size / pageSize) := by
      have h2 : size / pageSize - 1 + 1 = size / pageSize := by omega
      calc (size / pageSize - 1) * pageSize + pageSize
          = (size / pageSize - 1 + 1) * pageSize := by ring
        _ = pageSize * (size / pageSize) := by rw [h2]; ring
    omega
  · have hne : size % pageSize ≠ 0 := Nat.pos_iff_ne_zero.1 h
    simp only [hne, ne_eq, not_false_eq_true, if_true, ite_true]
    simp only [Nat.add_sub_cancel]
    have h1 : size / pageSize * pageSize = pageSize * (size / pageSize) :=
      Nat.mul_comm _ _
    omega

/-- Every page write of a pass starting at destination 0 ends at or
before the image length. -/
theorem writePages_dest_bound (pageSize size : Nat) (hps : 0 < pageSize) :
    ∀ w ∈ writePages pageSize 0 (pageSplit pageSize size).1
      (pageSplit pageSize size).2, w.1 + w.2.2 ≤ size := by
  intro w hw
  unfold writePages at hw
  obtain ⟨i, hi, rfl⟩ := List.mem_map.1 hw
  have hilt : i < (pageSplit pageSize size).1 := List.mem_range.1 hi
  have hlast := pageSplit_last pageSize size hps (by omega)
  simp only [Nat.zero_add]
  by_cases hl : i = (pageSplit pageSize size).1 - 1
  · rw [if_pos hl, hl]
    omega
  · rw [if_neg hl]
    have h1 : i * pageSize + pageSize = (i + 1) * pageSize := by ring
    have h2 : (i + 1) * pageSize ≤ ((pageSplit pageSize size).1 - 1) * pageSize :=
      Nat.mul_le_mul (by omega) (Nat.le_refl _)
    omega

/-- C9: the erase loop of every pass erases every one of the FLASHPAGES
pages, whatever the image length; consequently after a candidate pass of
an image shorter than the flash, every flash byte at an offset at or
past the image length is in the erased state. -/
theorem C9_erase_whole_flash (c : Config) (m : Memory) (buf : List Nat)
    (size addressto a n : Nat) (hps : 0 < c.pageSize)
    (hcap : size ≤ c.flashSize) (hn : n < c.numPages) :
    Ev.erasePage n ∈ passTrace c addressto size ∧
    (size ≤ a → a < c.flashSize → runPass c m 0 buf size a = erasedByte) := by
  constructor
  · unfold passTrace
    simp only [List.mem_append, List.mem_map, List.mem_range]
    exact Or.inl (Or.inl (Or.inr ⟨n, hn, rfl⟩))
  · intro ha1 ha2
    unfold runPass
    rw [applyWrites_outside _ _ _ _
      (fun w hw => le_trans (writePages_dest_bound c.pageSize size hps w hw) ha1)]
    unfold eraseAll
    rw [if_pos ha2]

/-- Closed instance of the C9 theorem at the concrete device. -/
theorem C9_erase_whole_flash_witness :
    (0 < cfg4.pageSize ∧ 4 ≤ cfg4.flashSize ∧ 2 < cfg4.numPages) ∧
    (Ev.erasePage 2 ∈ passTrace cfg4 0 4 ∧
      (4 ≤ 10 → 10 < cfg4.flashSize →
        runPass cfg4 mem7 0 [1, 2, 3, 4] 4 10 = erasedByte)) :=
  ⟨⟨by decide, by decide, by decide⟩,
    C9_erase_whole_flash cfg4 mem7 [1, 2, 3, 4] 4 0 10 2
      (by decide) (by decide) (by decide)⟩

/-- C1: at a concrete session whose candidate verification fails under
a single-byte write fault and whose backup write is fault-free, the
first recovery-pass page write lands at address `pagemax * pageSize`
(here 4), not at the start of the flash region, because `addressto` is
initialised only once, before the state loop; the backup verification
therefore fails and the session ends in `halt`.  Under the
spec-modelled behaviour (`runSessionSpec`, recovery destination
restarting at FLASHSTART) the same session ends in `reset`. -/
theorem C1_recover_destination_bug :
    (runSession cfg4 mem7 [1, 2, 3, 4] 4 (cfg4.crc [1, 2, 3, 4])
        flip0).recoverDest = some 4 ∧
    (runSession cfg4 mem7 [1, 2, 3, 4] 4 (cfg4.crc [1, 2, 3, 4])
        flip0).outcome = Terminal.halt ∧
    (runSessionSpec cfg4 mem7 [1, 2, 3, 4] 4 (cfg4.crc [1, 2, 3, 4])
        flip0).outcome = Terminal.reset := by
  decide

/-- C6: whenever a run of `main` ends in one of the six pre-flight
failure results — wrong argument count, unopenable input, malformed
checksum argument, oversize image, checksum mismatch, or operator
decline — the device-visible event trace is empty and memory is
unchanged. -/
theorem C6_preflight_no_side_effects (c : Config) (m0 : Memory)
    (inp : Inputs) (corrupt : Memory → Memory)
    (h : (runMain c m0 inp corrupt).1 = MainResult.usageError ∨
      (runMain c m0 inp corrupt).1 = MainResult.openError ∨
      (runMain c m0 inp corrupt).1 = MainResult.crcFormatError ∨
      (runMain c m0 inp corrupt).1 = MainResult.tooLarge ∨
      (runMain c m0 inp corrupt).1 = MainResult.crcMismatch ∨
      (runMain c m0 inp corrupt).1 = MainResult.userAbort) :
    (runMain c m0 inp corrupt).2.1 = [] ∧
    (runMain c m0 inp corrupt).2.2 = m0 := by
  have haux : ((runMain c m0 inp corrupt).2.1 = [] ∧
      (runMain c m0 inp corrupt).2.2 = m0) ∨
      (∃ out, (runMain c m0 inp corrupt).1 = MainResult.session out) := by
    simp only [runMain]
    split
    · exact Or.inl ⟨rfl, rfl⟩
    · split
      · exact Or.inl ⟨rfl, rfl⟩
      · split
        · exact Or.inl ⟨rfl, rfl⟩
        · split
          · exact Or.inl ⟨rfl, rfl⟩
          · split
            · exact Or.inl ⟨rfl, rfl⟩
            · split
              · exact Or.inl ⟨rfl, rfl⟩
              · split
                · exact Or.inr ⟨_, rfl⟩
                · exact Or.inl ⟨rfl, rfl⟩
  rcases haux with hok | ⟨out, hout⟩
  · exact hok
  · rw [hout] at h
    rcases h with h | h | h | h | h | h <;> exact absurd h (by simp)

/-- Closed instance of the C6 theorem: a run with the wrong argument
count performs no flash operation and leaves memory unchanged. -/
theorem C6_preflight_no_side_effects_witness :
    ((runMain cfg4 mem7 (Inputs.mk 2 true none [] []) flip0).1 =
        MainResult.usageError ∨
      (runMain cfg4 mem7 (Inputs.mk 2 true none [] []) flip0).1 =
        MainResult.openError ∨
      (runMain cfg4 mem7 (Inputs.mk 2 true none [] []) flip0).1 =
        MainResult.crcFormatError ∨
      (runMain cfg4 mem7 (Inputs.mk 2 true none [] []) flip0).1 =
        MainResult.tooLarge ∨
      (runMain cfg4 mem7 (Inputs.mk 2 true none [] []) flip0).1 =
        MainResult.crcMismatch ∨
      (runMain cfg4 mem7 (Inputs.mk 2 true none [] []) flip0).1 =
        MainResult.userAbort) ∧
    (runMain cfg4 mem7 (Inputs.mk 2 true none [] []) flip0).2.1 = [] ∧
    (runMain cfg4 mem7 (Inputs.mk 2 true none [] []) flip0).2.2 = mem7 :=
  ⟨Or.inl (by decide),
    C6_preflight_no_side_effects cfg4 mem7 (Inputs.mk 2 true none [] []) flip0
      (Or.inl (by decide))⟩

/-- C7: the prompt loop accepts exactly the bytes 121 and 110, consuming
input up to the first such byte and skipping every other byte; and, once
the pre-flight checks all pass, a 121 answer proceeds to the programming
session while a 110 answer aborts. -/
theorem C7_prompt_loop :
    (∀ (input : List Nat) (b : Nat) (rest : List Nat),
      promptLoop input = some (b, rest) ↔
        ∃ pre, input = pre ++ b :: rest ∧
          (∀ x ∈ pre, x ≠ 121 ∧ x ≠ 110) ∧ (b = 121 ∨ b = 110)) ∧
    (∀ (c : Config) (m0 : Memory) (inp : Inputs) (corrupt : Memory → Memory)
        (e : Nat) (rest : List Nat),
      inp.argc = 3 → inp.fileOpened = true → inp.crcArg = some e →
      (loadBytes inp.chunks).length ≤ c.flashSize →
      e = c.crc (loadBytes inp.chunks) →
      (promptLoop inp.responses = some (121, rest) →
        (runMain c m0 inp corrupt).1 = MainResult.session
          (runSession c m0 (loadBytes inp.chunks)
            (loadBytes inp.chunks).length e corrupt).outcome) ∧
      (promptLoop inp.responses = some (110, rest) →
        (runMain c m0 inp corrupt).1 = MainResult.userAbort)) := by
  constructor
  · intro input
    induction input with
    | nil =>
      intro b rest
      constructor
      · intro h
        exact absurd h (by simp [promptLoop])
      · rintro ⟨pre, hpre, -, -⟩
        exact absurd hpre (by simp)
    | cons a tl ih =>
      intro b rest
      by_cases h : a = 121 ∨ a = 110
      · rw [promptLoop, if_pos h]
        constructor
        · intro heq
          obtain ⟨hb, hrest⟩ := Prod.mk.injEq .. ▸ Option.some.inj heq
          exact ⟨[], by simp [hb, hrest], by simp, hb ▸ h⟩
        · rintro ⟨pre, hpre, hall, hb⟩
          cases pre with
          | nil =>
            simp only [List.nil_append, List.cons.injEq] at hpre
            rw [hpre.1, hpre.2]
          | cons p ps =>
            obtain ⟨hp1, hp2⟩ := hall p (List.mem_cons_self _ _)
            simp only [List.cons_append, List.cons.injEq] at hpre
            rw [hpre.1] at h
            exact absurd h (by simp [hp1, hp2])
      · rw [promptLoop, if_neg h]
        rw [ih b rest]
        constructor
        · rintro ⟨pre, hpre, hall, hb⟩
          refine ⟨a :: pre, by simp [hpre], ?_, hb⟩
          intro x hx
          rcases List.mem_cons.1 hx with hxa | hxp
          · subst hxa
            push_neg at h
            exact h
          · exact hall x hxp
        · rintro ⟨pre, hpre, hall, hb⟩
          cases pre with
          | nil =>
            simp only [List.nil_append, List.cons.injEq] at hpre
            rw [hpre.1] at h
            exact absurd hb h
          | cons p ps =>
            simp only [List.cons_append, List.cons.injEq] at hpre
            exact ⟨ps, hpre.2, fun x hx => hall x (List.mem_cons_of_mem _ hx), hb⟩
  · intro c m0 inp corrupt e rest h1 h2 h3 h4 h5
    constructor
    · intro hy
      simp only [runMain, h1, h2, h3, hy]
      rw [if_neg (by omega), if_neg (by simp [h2]), if_neg (by omega),
        if_neg (by simp [h5])]
      simp
    · intro hn
      simp only [runMain, h1, h2, h3, hn]
      rw [if_neg (by omega), if_neg (by simp [h2]), if_neg (by omega),
        if_neg (by simp [h5])]
      simp

/-- Closed instance of the C7 theorem: on the byte stream 65 121 110 the
loop skips the unrecognised byte 65 and stops at 121. -/
theorem C7_prompt_loop_witness :
    promptLoop [65, 121, 110] = some (121, [110]) ↔
      ∃ pre, [65, 121, 110] = pre ++ 121 :: [110] ∧
        (∀ x ∈ pre, x ≠ 121 ∧ x ≠ 110) ∧ ((121 : Nat) = 121 ∨ (121 : Nat) = 110) :=
  C7_prompt_loop.1 [65, 121, 110] 121 [110]

/-- C8 counterexample: a file of three nonempty 8-byte chunks loads 24
bytes into the staging buffer, exceeding the 16-byte staging capacity of
the concrete device — the load loop stops only on file exhaustion, so
the byte count written is not bounded by the capacity. -/
theorem C8_load_loop_counterexample :
    (∀ g ∈ List.replicate 3 (List.replicate 8 (1 : Nat)), 0 < g.length) ∧
    cfg4.flashSize <
      (loadBytes (List.replicate 3 (List.replicate 8 (1 : Nat)))).length := by
  decide

/-- C8 (amended): the load loop stops only when the input file is
exhausted — the bytes written equal the whole file's length, with no
capacity bound in the loop — and an image longer than the flash capacity
is rejected only afterwards, by the post-load size check, with no flash
operation. -/
theorem C8_load_unbounded_then_size_check :
    (∀ chunks : List (List Nat), (∀ g ∈ chunks, 0 < g.length) →
      (loadBytes chunks).length = (chunks.map List.length).sum) ∧
    (∀ (c : Config) (m0 : Memory) (inp : Inputs) (corrupt : Memory → Memory)
        (e : Nat),
      inp.argc = 3 → inp.fileOpened = true → inp.crcArg = some e →
      c.flashSize < (loadBytes inp.chunks).length →
      runMain c m0 inp corrupt = (MainResult.tooLarge, [], m0)) := by
  constructor
  · intro chunks
    induction chunks with
    | nil => intro _; rfl
    | cons g rest ih =>
      intro h
      have hg : 0 < g.length := h g (List.mem_cons_self _ _)
      simp only [loadBytes, if_pos hg, List.length_append, List.map_cons,
        List.sum_cons]
      rw [ih (fun g' hg' => h g' (List.mem_cons_of_mem _ hg'))]
  · intro c m0 inp corrupt e h1 h2 h3 h4
    simp only [runMain, h1, h2, h3]
    rw [if_neg (by omega), if_neg (by simp), if_pos h4]

/-- Closed instance of the C8 amended theorem: the exact chunk-sum law
on a one-chunk file, and the post-load rejection of the oversize file of
the counterexample. -/
theorem C8_load_unbounded_then_size_check_witness :
    ((∀ g ∈ [[(5 : Nat)]], 0 < g.length) ∧
      (loadBytes [[(5 : Nat)]]).length =
        (([[(5 : Nat)]]).map List.length).sum) ∧
    runMain cfg4 mem7
        (Inputs.mk 3 true (some 0)
          (List.replicate 3 (List.replicate 8 (1 : Nat))) []) flip0 =
      (MainResult.tooLarge, [], mem7) :=
  ⟨⟨by decide, C8_load_unbounded_then_size_check.1 [[(5 : Nat)]] (by decide)⟩,
    C8_load_unbounded_then_size_check.2 cfg4 mem7
      (Inputs.mk 3 true (some 0)
        (List.replicate 3 (List.replicate 8 (1 : Nat))) []) flip0 0
      rfl rfl rfl (by decide)⟩

/-- C10: an empty candidate file with the matching (empty-range)
checksum argument is not rejected: the run reaches the session, which
erases the whole flash, writes zero pages, verifies the zero-length
region successfully and ends in `reset`, leaving every flash byte
erased. -/
theorem C10_zero_length_session (c : Config) (m0 : Memory) (inp : Inputs)
    (h1 : inp.argc = 3) (h2 : inp.fileOpened = true) (h3 : inp.chunks = [])
    (h4 : inp.crcArg = some (c.crc []))
    (h5 : ∃ rest, promptLoop inp.responses = some (121, rest)) :
    (runMain c m0 inp (fun m => m)).1 = MainResult.session Terminal.reset ∧
    (pageSplit c.pageSize 0).1 = 0 ∧
    (∀ d s l, Ev.writePage d s l ∉ (runMain c m0 inp (fun m => m)).2.1) ∧
    (∀ n, n < c.numPages →
      Ev.erasePage n ∈ (runMain c m0 inp (fun m => m)).2.1) ∧
    (∀ a, a < c.flashSize →
      (runMain c m0 inp (fun m => m)).2.2 a = erasedByte) := by
  obtain ⟨rest, hr⟩ := h5
  have hempty : loadBytes inp.chunks = [] := by rw [h3]; rfl
  have hzero : (pageSplit c.pageSize 0).1 = 0 := by simp [pageSplit]
  have hcond : c.crc (readRange ((fun (m : Memory) => m)
      (runPass c m0 0 [] 0)) 0 0) = c.crc [] := by
    simp [readRange]
  have hsess : runSession c m0 [] 0 (c.crc []) (fun m => m) =
      { crcbackup := c.crc (readRange m0 0 c.flashSize),
        mem1 := runPass c m0 0 [] 0,
        pass1crc := c.crc (readRange (runPass c m0 0 [] 0) 0 0),
        pass1expected := c.crc [],
        pass2 := none, recoverDest := none,
        outcome := Terminal.reset, finalMem := runPass c m0 0 [] 0,
        trace := [Ev.backupCapture, Ev.disableInt] ++ passTrace c 0 0 } := by
    simp only [runSession]
    rw [if_pos hcond]
  have hmain : runMain c m0 inp (fun m => m) =
      (MainResult.session
          (runSession c m0 [] 0 (c.crc []) (fun m => m)).outcome,
        (runSession c m0 [] 0 (c.crc []) (fun m => m)).trace,
        (runSession c m0 [] 0 (c.crc []) (fun m => m)).finalMem) := by
    simp only [runMain, h1, h2, h4, hempty, hr, List.length_nil]
    rw [if_neg (by omega), if_neg (by simp), if_neg (by omega),
      if_neg (by simp)]
    simp
  have htrace0 : passTrace c 0 0 =
      [Ev.unlockKey, Ev.protOff, Ev.unlockKey, Ev.setFdiv]
        ++ (List.range c.numPages).map Ev.erasePage
        ++ [] ++ [Ev.lockKey, Ev.verify] := by
    unfold passTrace
    rw [hzero]
    rfl
  have hfin : ∀ a, a < c.flashSize → runPass c m0 0 [] 0 a = erasedByte := by
    intro a ha
    unfold runPass
    rw [hzero]
    unfold writePages
    simp only [List.range_zero, List.map_nil]
    unfold applyWrites eraseAll
    rw [if_pos ha]
  rw [hmain, hsess]
  refine ⟨rfl, hzero, ?_, ?_, hfin⟩
  · intro d s l
    simp [htrace0, List.mem_append, List.mem_map]
  · intro n hn
    simp [htrace0, List.mem_append, List.mem_map, List.mem_range, hn]

/-- Closed instance of the C10 theorem: the concrete empty-file inputs
end in `reset` with the flash of the concrete device fully erased. -/
theorem C10_zero_length_session_witness :
    (runMain cfg4 mem7 inpEmpty (fun m => m)).1 =
      MainResult.session Terminal.reset ∧
    (pageSplit cfg4.pageSize 0).1 = 0 ∧
    (∀ d s l, Ev.writePage d s l ∉ (runMain cfg4 mem7 inpEmpty (fun m => m)).2.1) ∧
    (∀ n, n < cfg4.numPages →
      Ev.erasePage n ∈ (runMain cfg4 mem7 inpEmpty (fun m => m)).2.1) ∧
    (∀ a, a < cfg4.flashSize →
      (runMain cfg4 mem7 inpEmpty (fun m => m)).2.2 a = erasedByte) :=
  C10_zero_length_session cfg4 mem7 inpEmpty rfl rfl rfl rfl ⟨[], by decide⟩

end AgonFlash
